import Mathlib

set_option linter.unusedVariables false

/-!
Shallow embedding of the Validator of `.github/scripts/validate_yaml.py`
(plus the spec-described domain checks), with theorems settling the
frozen claims about the specification.

The YAML/JSON values handled by the script are modelled by `Value`; the
JSON-Schema subset the repository exercises (`type`, `required`,
`properties`) is modelled by `Schema`, and the jsonschema library's
`iter_errors` enumeration is modelled by `iter_errors` below.  External
I/O outcomes (file reads, parser results) are passed in as explicit
outcome values, turning the script's exception flow into case analysis.
-/

/-- Exit code constants of `validate_yaml.py`. -/
def EXIT_SUCCESS : Nat := 0

/-- Exit code for bad CLI arguments. -/
def EXIT_BAD_ARGS : Nat := 2

/-- Exit code for schema load/resolution failures. -/
def EXIT_SCHEMA_ERROR : Nat := 3

/-- Exit code for YAML read/parse failures. -/
def EXIT_YAML_PARSE_ERROR : Nat := 4

/-- Exit code when validation findings exist. -/
def EXIT_VALIDATION_ERROR : Nat := 5

/-- Exit code for unexpected errors. -/
def EXIT_UNEXPECTED_ERROR : Nat := 6

/-- A parsed YAML/JSON document node (mappings kept as association lists,
mirroring the dynamically typed tree the script works on). -/
inductive Value where
  | null : Value
  | bool (b : Bool) : Value
  | num (n : Int) : Value
  | str (s : String) : Value
  | arr (items : List Value) : Value
  | obj (fields : List (String × Value)) : Value

/-- The JSON-Schema subset used: optional `type`, `required` list and
`properties` map (iterated in this fixed keyword order). -/
inductive Schema where
  | mk (type? : Option String) (required : List String)
       (properties : List (String × Schema)) : Schema

/-- One step of a jsonschema `absolute_path`: a mapping key or an array index. -/
inductive PathElem where
  | key (s : String) : PathElem
  | idx (n : Nat) : PathElem
deriving DecidableEq

/-- One `jsonschema.ValidationError` as surfaced by `iter_errors`:
document path, schema path, message, validator keyword, rendered
validator value, and the offending instance. -/
structure VError where
  path : List PathElem
  schemaPath : List String
  message : String
  validator : String
  validatorValue : String
  inst : Value

/-- Python `repr` of a string (single-quoted); escaping is not modelled. -/
def pyReprStr (s : String) : String :=
  "\x27" ++ s ++ "\x27"

mutual

/-- Python `repr` of a parsed value, used in jsonschema messages. -/
def pyRepr : Value → String
  | .null => "None"
  | .bool true => "True"
  | .bool false => "False"
  | .num n => toString n
  | .str s => pyReprStr s
  | .arr items => "[" ++ String.intercalate ", " (pyReprList items) ++ "]"
  | .obj fields => "\x7b" ++ String.intercalate ", " (pyReprMap fields) ++ "\x7d"

/-- `repr` of each array element. -/
def pyReprList : List Value → List String
  | [] => []
  | v :: rest => pyRepr v :: pyReprList rest

/-- `repr` of each mapping entry. -/
def pyReprMap : List (String × Value) → List String
  | [] => []
  | (k, v) :: rest => (pyReprStr k ++ ": " ++ pyRepr v) :: pyReprMap rest

end

/-- First value stored under key `k` (YAML mappings behave like dicts). -/
def lookupField (fields : List (String × Value)) (k : String) : Option Value :=
  match fields with
  | [] => none
  | (k0, v) :: rest => if k0 = k then some v else lookupField rest k

/-- Whether the mapping carries key `k`. -/
def hasField (fields : List (String × Value)) (k : String) : Bool :=
  (lookupField fields k).isSome

/-- jsonschema draft type check for the type names the repository uses.
`number`/`integer` both accept numeric instances. -/
def typeMatches (t : String) (v : Value) : Bool :=
  match v with
  | .null => t = "null"
  | .bool _ => t = "boolean"
  | .num _ => t = "number" || t = "integer"
  | .str _ => t = "string"
  | .arr _ => t = "array"
  | .obj _ => t = "object"

/-- The `required` keyword: one error per missing property, with the
message format of jsonschema (`'p' is a required property`), anchored at
the containing object's path. -/
def requiredErrors (req : List String) (fields : List (String × Value))
    (path : List PathElem) : List VError :=
  req.filterMap fun name =>
    if hasField fields name then none
    else some
      { path := path
        schemaPath := ["required"]
        message := pyReprStr name ++ " is a required property"
        validator := "required"
        validatorValue := "[" ++ String.intercalate ", " (req.map pyReprStr) ++ "]"
        inst := .obj fields }

mutual

/-- Model of `jsonschema.Validator.iter_errors` on the embedded schema
subset: the `type` keyword applies to every instance, `required` and
`properties` only to mapping instances; all errors are collected, never
short-circuited. -/
def iter_errors (s : Schema) (path : List PathElem) (spath : List String)
    (v : Value) : List VError :=
  match s with
  | .mk t? req props =>
    (match t? with
     | some t =>
       if typeMatches t v then []
       else [{ path := path
               schemaPath := spath ++ ["type"]
               message := pyRepr v ++ " is not of type " ++ pyReprStr t
               validator := "type"
               validatorValue := pyReprStr t
               inst := v }]
     | none => []) ++
    (match v with
     | .obj fields =>
       requiredErrors req fields path ++ iterProps props fields path spath
     | _ => [])

/-- Errors of the `properties` keyword: recurse into each declared
property that is present in the instance. -/
def iterProps (props : List (String × Schema)) (fields : List (String × Value))
    (path : List PathElem) (spath : List String) : List VError :=
  match props with
  | [] => []
  | (k, sub) :: rest =>
    (match lookupField fields k with
     | some vv => iter_errors sub (path ++ [.key k]) (spath ++ ["properties", k]) vv
     | none => []) ++ iterProps rest fields path spath

end

mutual

/-- Modelled from the spec: a document "structurally satisfies the
schema" — its type matches, required fields are present, and each
declared property present in the document conforms to its subschema.
This is the spec-side counterpart compared against `iter_errors`. -/
def conformsTo : Schema → Value → Bool
  | .mk t? req props, v =>
    (match t? with
     | some t => typeMatches t v
     | none => true) &&
    (match v with
     | .obj fields =>
       req.all (fun name => hasField fields name) && conformsProps props fields
     | _ => true)

/-- Spec-side conformance of each declared property. -/
def conformsProps : List (String × Schema) → List (String × Value) → Bool
  | [], _ => true
  | (k, sub) :: rest, fields =>
    (match lookupField fields k with
     | some vv => conformsTo sub vv
     | none => true) && conformsProps rest fields

end

/-- `path_to_str`: renders a jsonschema path as `$.foo[0].bar`. -/
def path_to_str (path : List PathElem) : String :=
  if path.isEmpty then "$"
  else
    let parts := path.foldl
      (fun (acc : List String) p =>
        match p with
        | .idx n => acc ++ ["[" ++ toString n ++ "]"]
        | .key s =>
          if acc ≠ [] ∧ ¬ ((acc.getLastD "").startsWith "[") then acc ++ [".", s]
          else acc ++ [s])
      []
    let out := String.join parts
    if out.startsWith "$" then out
    else "$." ++ ⟨out.data.dropWhile (fun c => c = '.')⟩

/-- `gha_escape` working on the character list:
`replace("%","%25").replace("\r","%0D").replace("\n","%0A")`.
Each `str.replace` with a one-character pattern substitutes every
occurrence of that character. -/
def pyReplaceChar (pat : Char) (rep : List Char) (l : List Char) : List Char :=
  l.flatMap fun c => if c = pat then rep else [c]

/-- `gha_escape` of the script, per GitHub Actions command escaping. -/
def gha_escape (s : String) : String :=
  ⟨pyReplaceChar '\n' ['%', '0', 'A']
    (pyReplaceChar '\r' ['%', '0', 'D']
      (pyReplaceChar '%' ['%', '2', '5'] s.data))⟩

/-- Inverse of the escaping (decoder of the three codewords). -/
def ghaDecode : List Char → List Char
  | [] => []
  | '%' :: '2' :: '5' :: r => '%' :: ghaDecode r
  | '%' :: '0' :: 'D' :: r => '\r' :: ghaDecode r
  | '%' :: '0' :: 'A' :: r => '\n' :: ghaDecode r
  | c :: rest => c :: ghaDecode rest

/-- Outcome of `open` + `ruamel` parse inside `load_yaml_with_positions`,
made explicit: success, missing file, a `YAMLError` carrying an optional
`problem_mark` (0-based line/column), another `OSError`, or any other
exception. -/
inductive YamlOutcome where
  | ok (v : Value) : YamlOutcome
  | fileNotFound (msg : String) : YamlOutcome
  | yamlErr (mark : Option (Nat × Nat)) (msg : String) : YamlOutcome
  | osErr (msg : String) : YamlOutcome
  | unexpected (msg : String) : YamlOutcome

/-- Failure classes raised by `load_yaml_with_positions` towards
`validate_yaml`: re-raised `FileNotFoundError`, `SyntaxError`,
`OSError`, or any other exception. -/
inductive LoadFail where
  | fnf (msg : String) : LoadFail
  | syn (msg : String) : LoadFail
  | os (msg : String) : LoadFail
  | unexpected (msg : String) : LoadFail

/-- `load_yaml_with_positions`: converts the parser outcome, wrapping a
`YAMLError` into a `SyntaxError` whose message carries the 1-based
line/column when the error has a `problem_mark`. -/
def load_yaml_with_positions (filePath : String) (y : YamlOutcome) :
    Except LoadFail Value :=
  match y with
  | .ok v => .ok v
  | .fileNotFound m => .error (.fnf m)
  | .yamlErr (some (line, col)) m =>
    .error (.syn ("YAML parse error at line " ++ toString (line + 1) ++
      ", column " ++ toString (col + 1) ++ ": " ++ m))
  | .yamlErr none m => .error (.syn ("YAML parse error: " ++ m))
  | .osErr m => .error (.os ("Could not read YAML file " ++ filePath ++ ": " ++ m))
  | .unexpected m => .error (.unexpected m)

/-- Outcome of `load_schema`: the parsed, self-checked schema, or the
message of the exception it raised. -/
inductive SchemaOutcome where
  | ok (s : Schema) : SchemaOutcome
  | err (msg : String) : SchemaOutcome

/-- Whether the offending instance is a mapping (used by the relevance
heuristic of `jsonschema.exceptions.best_match`). -/
def isObjValue : Value → Bool
  | .obj _ => true
  | _ => false

/-- The relevance key of `jsonschema.exceptions.by_relevance()`:
`(-len(path), validator not in weak, validator in strong, not is_object)`
with `weak = {anyOf, oneOf}` and `strong = {}`; tuples compare
lexicographically, mirroring Python. -/
def relevanceKey (e : VError) : Lex (Int × Lex (Bool × Lex (Bool × Bool))) :=
  toLex (-(e.path.length : Int),
    toLex (!(["anyOf", "oneOf"].contains e.validator),
      toLex ((([] : List String).contains e.validator), !(isObjValue e.inst))))

/-- `jsonschema.exceptions.best_match`: `max` over the relevance key,
keeping the first maximal error (Python `max` only replaces on a strictly
greater key).  The embedded schema subset produces no `context`
sub-errors, so the descent loop of the library is a no-op. -/
def best_match (errors : List VError) : Option VError :=
  match errors with
  | [] => none
  | e :: rest =>
    some (rest.foldl (fun b x => if relevanceKey b < relevanceKey x then x else b) e)

/-- Model of `jsonschema.ValidationError.__str__`: the message followed
by a `Failed validating …` block describing the schema location. -/
def errStr (e : VError) : String :=
  e.message ++ "\n\nFailed validating " ++ pyReprStr e.validator ++
    " in schema" ++ String.join (e.schemaPath.map (fun p => "[" ++ pyReprStr p ++ "]"))

/-- The sort key of `validate_yaml`:
`(len(list(e.absolute_path)), str(e))`, compared as a Python tuple. -/
def sortLe (a b : VError) : Bool :=
  a.path.length < b.path.length ||
    (a.path.length = b.path.length && errStr a ≤ errStr b)

/-- Stable insertion of an error into an already sorted list: placed
before the first element it compares `sortLe` to (ties keep the earlier
element first, as Python's stable sort does). -/
def insertSorted (e : VError) : List VError → List VError
  | [] => [e]
  | x :: rest => if sortLe e x then e :: x :: rest else x :: insertSorted e rest

/-- `errors.sort(key=lambda e: (len(list(e.absolute_path)), str(e)))`:
Python's `list.sort` is stable, modelled by stable insertion sort. -/
def sortErrors (errors : List VError) : List VError :=
  match errors with
  | [] => []
  | e :: rest => insertSorted e (sortErrors rest)

theorem mem_insertSorted {a e : VError} :
    ∀ {l : List VError}, a ∈ insertSorted e l ↔ a = e ∨ a ∈ l := by
  intro l
  induction l with
  | nil => simp [insertSorted]
  | cons x rest ih =>
    rw [insertSorted]
    split
    · simp
    · rw [List.mem_cons, ih, List.mem_cons]
      tauto

theorem mem_sortErrors {a : VError} :
    ∀ {l : List VError}, a ∈ sortErrors l ↔ a ∈ l := by
  intro l
  induction l with
  | nil => simp [sortErrors]
  | cons e rest ih =>
    rw [sortErrors, mem_insertSorted, ih, List.mem_cons]

/-- `format_text_error` (with no resolvable line/column: the embedded
documents carry no `ruamel` position metadata, so the position resolver
yields nothing and the `location:` line is omitted). -/
def format_text_error (filePath : String) (e : VError) : String :=
  String.intercalate "\n"
    ["Validation error:",
     "  file: " ++ filePath,
     "  path: " ++ path_to_str e.path,
     "  schema_path: " ++ String.intercalate "." e.schemaPath,
     "  message: " ++ e.message,
     "  validator: " ++ e.validator,
     "  validator_value: " ++ e.validatorValue,
     "  instance: " ++
       (if (pyRepr e.inst).length > 200
        then (pyRepr e.inst).take 197 ++ "..."
        else pyRepr e.inst)]

/-- The observable result of one `validate_yaml` run: exit code, the
lines printed (text output mode), and the findings reported. -/
structure RunResult where
  exit : Nat
  lines : List String
  findings : List VError

/-- `validate_yaml` (text output mode): load the schema, load the YAML,
collect `iter_errors`, optionally collapse to `best_match` under
`fail_fast`, sort, and report. -/
def validate_yaml (filePath schemaPath : String) (so : SchemaOutcome)
    (yo : YamlOutcome) (failFast quiet : Bool) : RunResult :=
  match so with
  | .err m => ⟨EXIT_SCHEMA_ERROR, ["Schema load error: " ++ m], []⟩
  | .ok schema =>
    match load_yaml_with_positions filePath yo with
    | .error (.fnf m) =>
      ⟨EXIT_YAML_PARSE_ERROR, ["YAML file not found: " ++ m], []⟩
    | .error (.syn m) =>
      ⟨EXIT_YAML_PARSE_ERROR, ["YAML syntax error in " ++ filePath ++ ": " ++ m], []⟩
    | .error (.os m) =>
      ⟨EXIT_YAML_PARSE_ERROR, ["Could not read YAML file: " ++ m], []⟩
    | .error (.unexpected m) =>
      ⟨EXIT_UNEXPECTED_ERROR, ["Unexpected error while reading YAML: " ++ m], []⟩
    | .ok data =>
      let errors := iter_errors schema [] [] data
      if errors.isEmpty then
        ⟨EXIT_SUCCESS, if quiet then [] else ["YAML validation successful!"], []⟩
      else
        let collapsed :=
          if failFast then
            match best_match errors with
            | some bm => [bm]
            | none => errors.take 1
          else errors
        let sorted := sortErrors collapsed
        ⟨EXIT_VALIDATION_ERROR,
         ("Found " ++ toString sorted.length ++ " validation error(s) in " ++
            filePath ++ ":") ::
           (sorted.enum.flatMap fun (i, e) =>
             ["\n[" ++ toString (i + 1) ++ "/" ++ toString sorted.length ++ "]",
              format_text_error filePath e]),
         sorted⟩

/-- `os.path.join` for the fixed `dir, "schema.json"` uses. -/
def joinPath (dir file : String) : String :=
  dir ++ "/" ++ file

/-- Python truthiness of the optional CLI/env schema strings: `None` and
the empty string contribute no candidate. -/
def optCandidate (o : Option String) : List String :=
  match o with
  | some s => if s = "" then [] else [s]
  | none => []

/-- The candidate list of `resolve_schema_path`, in source order:
CLI override, `SCHEMA_PATH` env var, sibling of the data file, sibling
of the script, current working directory. -/
def schemaCandidates (cliSchema envSchema : Option String)
    (yamlDir scriptDir cwd : String) : List String :=
  optCandidate cliSchema ++ optCandidate envSchema ++
    [joinPath yamlDir "schema.json",
     joinPath scriptDir "schema.json",
     joinPath cwd "schema.json"]

/-- Python `sep.join(items)`. -/
def pyJoin (sep : String) : List String → String
  | [] => ""
  | [x] => x
  | x :: rest => x ++ sep ++ pyJoin sep rest

/-- The existence test of the loop in `resolve_schema_path`:
`if candidate and os.path.isfile(candidate)`. -/
def candidateOk (isFile : String → Bool) (c : String) : Bool :=
  c ≠ "" && isFile c

/-- `resolve_schema_path` over an explicit filesystem predicate: first
existing candidate, else `FileNotFoundError` listing every candidate. -/
def resolve_schema_path (cliSchema envSchema : Option String)
    (yamlDir scriptDir cwd : String) (isFile : String → Bool) :
    Except String String :=
  let candidates := schemaCandidates cliSchema envSchema yamlDir scriptDir cwd
  match candidates.find? (candidateOk isFile) with
  | some c => .ok c
  | none =>
    .error ("Schema file not found. Checked: " ++
      pyJoin ", " (candidates.filter (fun c => c ≠ "")))

/-- `main`: resolve the schema path; on failure print the message and
exit `EXIT_SCHEMA_ERROR`, otherwise run `validate_yaml` on the resolved
path (the continuation is passed in explicitly). -/
def mainRun (cliSchema envSchema : Option String)
    (yamlDir scriptDir cwd : String) (isFile : String → Bool)
    (runValidate : String → RunResult) : RunResult :=
  match resolve_schema_path cliSchema envSchema yamlDir scriptDir cwd isFile with
  | .error m => ⟨EXIT_SCHEMA_ERROR, [m], []⟩
  | .ok p => runValidate p

/-- A location sub-object of an Entry (only the country code matters to
the claims; continent/city are not consulted by the modelled checks). -/
structure Location where
  countryId? : Option String
deriving DecidableEq

/-- Modelled from the spec (§3 Data Model): one directory Entry — name,
URL and its list of locations. -/
structure Entry where
  name : String
  url : String
  locations : List Location
deriving DecidableEq

instance : Inhabited Entry := ⟨⟨"", "", []⟩⟩

/-- The ISO 3166-1 alpha-2 table of officially assigned codes (the
external lookup service of the spec, a pure membership function). -/
def isoAlpha2 : List String :=
  ["AD", "AE", "AF", "AG", "AI", "AL", "AM", "AO", "AQ", "AR", "AS", "AT",
   "AU", "AW", "AX", "AZ", "BA", "BB", "BD", "BE", "BF", "BG", "BH", "BI",
   "BJ", "BL", "BM", "BN", "BO", "BQ", "BR", "BS", "BT", "BV", "BW", "BY",
   "BZ", "CA", "CC", "CD", "CF", "CG", "CH", "CI", "CK", "CL", "CM", "CN",
   "CO", "CR", "CU", "CV", "CW", "CX", "CY", "CZ", "DE", "DJ", "DK", "DM",
   "DO", "DZ", "EC", "EE", "EG", "EH", "ER", "ES", "ET", "FI", "FJ", "FK",
   "FM", "FO", "FR", "GA", "GB", "GD", "GE", "GF", "GG", "GH", "GI", "GL",
   "GM", "GN", "GP", "GQ", "GR", "GS", "GT", "GU", "GW", "GY", "HK", "HM",
   "HN", "HR", "HT", "HU", "ID", "IE", "IL", "IM", "IN", "IO", "IQ", "IR",
   "IS", "IT", "JE", "JM", "JO", "JP", "KE", "KG", "KH", "KI", "KM", "KN",
   "KP", "KR", "KW", "KY", "KZ", "LA", "LB", "LC", "LI", "LK", "LR", "LS",
   "LT", "LU", "LV", "LY", "MA", "MC", "MD", "ME", "MF", "MG", "MH", "MK",
   "ML", "MM", "MN", "MO", "MP", "MQ", "MR", "MS", "MT", "MU", "MV", "MW",
   "MX", "MY", "MZ", "NA", "NC", "NE", "NF", "NG", "NI", "NL", "NO", "NP",
   "NR", "NU", "NZ", "OM", "PA", "PE", "PF", "PG", "PH", "PK", "PL", "PM",
   "PN", "PR", "PS", "PT", "PW", "PY", "QA", "RE", "RO", "RS", "RU", "RW",
   "SA", "SB", "SC", "SD", "SE", "SG", "SH", "SI", "SJ", "SK", "SL", "SM",
   "SN", "SO", "SR", "SS", "ST", "SV", "SX", "SY", "SZ", "TC", "TD", "TF",
   "TG", "TH", "TJ", "TK", "TL", "TM", "TN", "TO", "TR", "TT", "TV", "TW",
   "TZ", "UA", "UG", "UM", "US", "UY", "UZ", "VA", "VC", "VE", "VG", "VI",
   "VN", "VU", "WF", "WS", "YE", "YT", "ZA", "ZM", "ZW"]

/-- Membership in the ISO 3166-1 alpha-2 table. -/
def isoMember (c : String) : Bool :=
  isoAlpha2.contains c

/-- A syntactically well-formed alpha-2 code: exactly two uppercase
ASCII letters (the format-only check the spec says is insufficient). -/
def isTwoUpper (c : String) : Bool :=
  c.length = 2 && c.data.all (fun ch => ch.isUpper)

/-- The grouping key of the duplicate check. -/
def entryKey (e : Entry) : String × String :=
  (e.name, e.url)

/-- Key of the entry at index `i` (default entry out of range). -/
def keyAt (es : List Entry) (i : Nat) : String × String :=
  entryKey (es.getD i default)

/-- A duplicate Finding: the extra member's own index and the index of
the earlier entry it duplicates. -/
structure DupFinding where
  index : Nat
  earlier : Nat
deriving DecidableEq

/-- The earliest index `j < i` holding the same `(name, URL)` key. -/
def firstDupOf (es : List Entry) (i : Nat) : Option Nat :=
  (List.range i).find? (fun j => keyAt es j = keyAt es i)

/-- Modelled from the spec (§4.4 Duplicate check, absent from the
validator source under version control here): group Entries by
`(name, URL)`; every non-first member of a group yields one Finding
referencing its own index and the first occurrence it duplicates. -/
def dupFindings (es : List Entry) : List DupFinding :=
  (List.range es.length).filterMap fun i =>
    match firstDupOf es i with
    | some j => some ⟨i, j⟩
    | none => none

/-- A country-code Finding: entry index, entry name, offending code. -/
structure CountryFinding where
  index : Nat
  name : String
  code : String
deriving DecidableEq

/-- Country-code findings of one entry. -/
def entryCountryFindings (i : Nat) (e : Entry) : List CountryFinding :=
  e.locations.filterMap fun loc =>
    match loc.countryId? with
    | some c => if isoMember c then none else some ⟨i, e.name, c⟩
    | none => none

/-- Indexed traversal collecting country-code findings from entry `i` on. -/
def countryFindingsFrom : Nat → List Entry → List CountryFinding
  | _, [] => []
  | i, e :: rest => entryCountryFindings i e ++ countryFindingsFrom (i + 1) rest

/-- Modelled from the spec (§4.4 Country-code check, absent from the
validator source under version control here): every location sub-object
carrying a country code that does not resolve against the ISO 3166-1
alpha-2 table produces a Finding naming the offending entry. -/
def countryFindings (es : List Entry) : List CountryFinding :=
  countryFindingsFrom 0 es

/-- The string stored under key `k`, if it is a string (missing or
non-string fields read as the empty string, per the Entry shape). -/
def strFieldD (fields : List (String × Value)) (k : String) : String :=
  match lookupField fields k with
  | some (.str s) => s
  | _ => ""

/-- Modelled from the spec: the location sub-objects of one raw entry. -/
def locationsOf (fields : List (String × Value)) : List Location :=
  match lookupField fields "locations" with
  | some (.arr ls) =>
    ls.filterMap fun l =>
      match l with
      | .obj lf =>
        some ⟨match lookupField lf "country_id" with
              | some (.str c) => some c
              | _ => none⟩
      | _ => none
  | _ => []

/-- Modelled from the spec: the directory Entries of a Document — the
mapping's `groups` sequence, each member read as an Entry. -/
def entriesOfDoc (v : Value) : List Entry :=
  match v with
  | .obj fields =>
    match lookupField fields "groups" with
    | some (.arr gs) =>
      gs.filterMap fun g =>
        match g with
        | .obj gf => some ⟨strFieldD gf "name", strFieldD gf "url", locationsOf gf⟩
        | _ => none
    | _ => []
  | _ => []

/-- Modelled from the spec: a Document passes every domain check when
the duplicate check and the country-code check produce no Finding. -/
def domainChecksPass (v : Value) : Bool :=
  (dupFindings (entriesOfDoc v)).isEmpty &&
    (countryFindings (entriesOfDoc v)).isEmpty

/-- The per-character encoding equivalent to the three chained
`replace` passes of `gha_escape`. -/
def encChar (c : Char) : List Char :=
  if c = '%' then ['%', '2', '5']
  else if c = '\r' then ['%', '0', 'D']
  else if c = '\n' then ['%', '0', 'A']
  else [c]

theorem mem_pyReplaceChar {x pat : Char} {rep l : List Char}
    (hx : x ∈ pyReplaceChar pat rep l) : x ∈ rep ∨ x ∈ l := by
  simp only [pyReplaceChar, List.mem_flatMap] at hx
  obtain ⟨c, hc, hx⟩ := hx
  split at hx
  · exact Or.inl hx
  · simp at hx
    exact Or.inr (hx ▸ hc)

theorem pat_not_mem_pyReplaceChar {pat : Char} {rep l : List Char}
    (h : pat ∉ rep) : pat ∉ pyReplaceChar pat rep l := by
  intro hx
  simp only [pyReplaceChar, List.mem_flatMap] at hx
  obtain ⟨c, _, hx⟩ := hx
  split at hx
  · exact h hx
  · simp at hx
    simp_all

theorem gha_escape_data_eq (l : List Char) :
    pyReplaceChar '\n' ['%', '0', 'A']
      (pyReplaceChar '\r' ['%', '0', 'D']
        (pyReplaceChar '%' ['%', '2', '5'] l)) = l.flatMap encChar := by
  induction l with
  | nil => rfl
  | cons c rest ih =>
    simp only [pyReplaceChar, List.flatMap_cons] at *
    rw [← ih]
    by_cases h1 : c = '%'
    · subst h1; simp [encChar]
    · by_cases h2 : c = '\r'
      · subst h2; simp [encChar]
      · by_cases h3 : c = '\n'
        · subst h3; simp [encChar]
        · simp [encChar, h1, h2, h3]

theorem ghaDecode_cons_ne (c : Char) (t : List Char) (h : c ≠ '%') :
    ghaDecode (c :: t) = c :: ghaDecode t := by
  rw [ghaDecode.eq_def]
  split <;> simp_all

theorem ghaDecode_encode (l : List Char) :
    ghaDecode (l.flatMap encChar) = l := by
  induction l with
  | nil => rfl
  | cons c rest ih =>
    rw [List.flatMap_cons]
    by_cases h1 : c = '%'
    · subst h1
      show ghaDecode ('%' :: '2' :: '5' :: rest.flatMap encChar) = _
      rw [ghaDecode, ih]
    · by_cases h2 : c = '\r'
      · subst h2
        show ghaDecode ('%' :: '0' :: 'D' :: rest.flatMap encChar) = _
        rw [ghaDecode, ih]
      · by_cases h3 : c = '\n'
        · subst h3
          show ghaDecode ('%' :: '0' :: 'A' :: rest.flatMap encChar) = _
          rw [ghaDecode, ih]
        · have : encChar c = [c] := by simp [encChar, h1, h2, h3]
          rw [this]
          simpa [ghaDecode_cons_ne c _ h1] using ih

/-- C10: for every input string, `gha_escape` produces an output with no
carriage-return and no line-feed character (each CI annotation stays on
one line), and `gha_escape` is injective (escaping `%` before `\r` and
`\n` keeps the encoding invertible). -/
theorem gha_escape_single_line_and_injective :
    (∀ s : String,
      '\r' ∉ (gha_escape s).data ∧ '\n' ∉ (gha_escape s).data) ∧
    Function.Injective gha_escape := by
  constructor
  · intro s
    constructor
    · intro hmem
      have hmem' : '\r' ∈ pyReplaceChar '\r' ['%', '0', 'D']
          (pyReplaceChar '%' ['%', '2', '5'] s.data) ∨
          '\r' ∈ (['%', '0', 'A'] : List Char) := by
        rcases mem_pyReplaceChar hmem with h | h
        · exact Or.inr h
        · exact Or.inl h
      rcases hmem' with h | h
      · exact pat_not_mem_pyReplaceChar (by decide) h
      · simp at h
    · exact pat_not_mem_pyReplaceChar (by decide)
  · intro a b hab
    have hdata : (gha_escape a).data = (gha_escape b).data := by rw [hab]
    have ha : (gha_escape a).data = a.data.flatMap encChar := gha_escape_data_eq a.data
    have hb : (gha_escape b).data = b.data.flatMap encChar := gha_escape_data_eq b.data
    have : a.data.flatMap encChar = b.data.flatMap encChar := by
      rw [← ha, ← hb, hdata]
    have hd : a.data = b.data := by
      have := congrArg ghaDecode this
      rwa [ghaDecode_encode, ghaDecode_encode] at this
    cases a; cases b; exact congrArg String.mk hd

/-- C10 witness: the theorem applied at concrete inputs. -/
theorem gha_escape_single_line_and_injective_witness :
    ('\r' ∉ (gha_escape "a%b\r\n").data ∧ '\n' ∉ (gha_escape "a%b\r\n").data) ∧
    "a%0A" = "a%0A" :=
  ⟨gha_escape_single_line_and_injective.1 "a%b\r\n",
   gha_escape_single_line_and_injective.2 (rfl : gha_escape "a%0A" = gha_escape "a%0A")⟩

/-- `sub` occurs inside `s` (used to state "the message contains …"). -/
def containsSubstr (s sub : String) : Prop :=
  ∃ pre post, s = pre ++ sub ++ post

/-- C9: a missing data file returns `EXIT_YAML_PARSE_ERROR` (4) — the
same exit code as a syntactically malformed document — with no distinct
file-not-found code; the two causes differ only in the printed message
(`YAML file not found: …` vs `YAML syntax error in …`). -/
theorem missing_file_shares_parse_error_exit :
    ∀ (fp sp m pm : String) (schema : Schema) (mark : Option (Nat × Nat))
      (ff q : Bool),
    validate_yaml fp sp (.ok schema) (.fileNotFound m) ff q =
      ⟨EXIT_YAML_PARSE_ERROR, ["YAML file not found: " ++ m], []⟩ ∧
    (validate_yaml fp sp (.ok schema) (.yamlErr mark pm) ff q).exit =
      EXIT_YAML_PARSE_ERROR ∧
    (∃ m2, (validate_yaml fp sp (.ok schema) (.yamlErr mark pm) ff q).lines =
      ["YAML syntax error in " ++ fp ++ ": " ++ m2]) := by
  intro fp sp m pm schema mark ff q
  refine ⟨rfl, ?_, ?_⟩
  · rcases mark with _ | ⟨line, col⟩ <;> rfl
  · rcases mark with _ | ⟨line, col⟩
    · exact ⟨"YAML parse error: " ++ pm, rfl⟩
    · exact ⟨"YAML parse error at line " ++ toString (line + 1) ++ ", column " ++
        toString (col + 1) ++ ": " ++ pm, rfl⟩

theorem colon_line_regroup (X : String) :
    ": " ++ ("YAML parse error at line " ++ X) =
      ": YAML parse error at " ++ ("line " ++ X) := by
  rw [← String.append_assoc, ← String.append_assoc]
  exact congrArg (fun y => y ++ X) rfl

/-- C7: a syntactically malformed document (a `YAMLError` from the
parser) always yields `EXIT_YAML_PARSE_ERROR` — never the
validation-error or unexpected-error code — and when the parser supplies
a problem mark (as it does for, e.g., an unterminated sequence) the
reported message contains the 1-based line number. -/
theorem malformed_yaml_exit_and_line_number :
    ∀ (fp sp pm : String) (schema : Schema) (mark : Option (Nat × Nat))
      (line col : Nat) (ff q : Bool),
    (validate_yaml fp sp (.ok schema) (.yamlErr mark pm) ff q).exit =
      EXIT_YAML_PARSE_ERROR ∧
    (validate_yaml fp sp (.ok schema) (.yamlErr mark pm) ff q).exit ≠
      EXIT_VALIDATION_ERROR ∧
    (validate_yaml fp sp (.ok schema) (.yamlErr mark pm) ff q).exit ≠
      EXIT_UNEXPECTED_ERROR ∧
    (∃ msg, (validate_yaml fp sp (.ok schema)
        (.yamlErr (some (line, col)) pm) ff q).lines = [msg] ∧
      containsSubstr msg ("line " ++ toString (line + 1))) := by
  intro fp sp pm schema mark line col ff q
  have hexit : (validate_yaml fp sp (.ok schema) (.yamlErr mark pm) ff q).exit =
      EXIT_YAML_PARSE_ERROR := by
    rcases mark with _ | ⟨l, c⟩ <;> rfl
  refine ⟨hexit, ?_, ?_, ?_⟩
  · rw [hexit]; simp [EXIT_YAML_PARSE_ERROR, EXIT_VALIDATION_ERROR]
  · rw [hexit]; simp [EXIT_YAML_PARSE_ERROR, EXIT_UNEXPECTED_ERROR]
  · refine ⟨"YAML syntax error in " ++ fp ++ ": " ++
      ("YAML parse error at line " ++ toString (line + 1) ++ ", column " ++
        toString (col + 1) ++ ": " ++ pm), rfl, ?_⟩
    refine ⟨"YAML syntax error in " ++ fp ++ ": YAML parse error at ",
      ", column " ++ toString (col + 1) ++ ": " ++ pm, ?_⟩
    have h1 : "YAML parse error at line " ++ toString (line + 1) ++ ", column " ++
        toString (col + 1) ++ ": " ++ pm =
        "YAML parse error at line " ++ (toString (line + 1) ++ (", column " ++
          (toString (col + 1) ++ (": " ++ pm)))) := by
      simp [String.append_assoc]
    rw [h1, String.append_assoc, colon_line_regroup]
    simp [String.append_assoc]

theorem mem_containsSubstr_pyJoin {sep c : String} :
    ∀ l : List String, c ∈ l → containsSubstr (pyJoin sep l) c := by
  intro l
  induction l with
  | nil => intro hc; cases hc
  | cons a rest ih =>
    intro hc
    rcases rest with _ | ⟨b, t⟩
    · have hca : c = a := by simpa using hc
      exact ⟨"", "", by simp [pyJoin, hca]⟩
    · rcases List.mem_cons.mp hc with h | h
      · exact ⟨"", sep ++ pyJoin sep (b :: t), by
          simp [pyJoin, h.symm, String.append_assoc]⟩
      · obtain ⟨pre, post, hsplit⟩ := ih h
        exact ⟨a ++ sep ++ pre, post, by
          have hstep : pyJoin sep (a :: b :: t) = a ++ sep ++ pyJoin sep (b :: t) := rfl
          rw [hstep, hsplit]
          simp [String.append_assoc]⟩

/-- C8: schema resolution tries the candidates in the fixed source
order (CLI path, `SCHEMA_PATH` env var, sibling of the data file,
sibling of the script, current directory) and returns the first existing
one; when none exists, `main` exits with `EXIT_SCHEMA_ERROR` and the
message lists every candidate path attempted. -/
theorem schema_resolution_first_hit_and_error_listing :
    ∀ (cli env : Option String) (yd sd cwd : String) (isFile : String → Bool)
      (runValidate : String → RunResult),
    (∀ c, resolve_schema_path cli env yd sd cwd isFile = .ok c →
      candidateOk isFile c = true ∧
      ∃ l1 l2, schemaCandidates cli env yd sd cwd = l1 ++ c :: l2 ∧
        ∀ y ∈ l1, candidateOk isFile y = false) ∧
    ((∀ c ∈ schemaCandidates cli env yd sd cwd, candidateOk isFile c = false) →
      ∃ msg, mainRun cli env yd sd cwd isFile runValidate =
        ⟨EXIT_SCHEMA_ERROR, [msg], []⟩ ∧
        ∀ c ∈ schemaCandidates cli env yd sd cwd, c ≠ "" →
          containsSubstr msg c) := by
  intro cli env yd sd cwd isFile runValidate
  constructor
  · intro c hc
    have hfind : (schemaCandidates cli env yd sd cwd).find?
        (candidateOk isFile) = some c := by
      by_cases h : ((schemaCandidates cli env yd sd cwd).find?
          (candidateOk isFile)).isSome
      · obtain ⟨x, hx⟩ := Option.isSome_iff_exists.mp h
        simp only [resolve_schema_path, hx] at hc
        cases hc
        exact hx
      · have hnone : (schemaCandidates cli env yd sd cwd).find?
            (candidateOk isFile) = none := Option.not_isSome_iff_eq_none.mp h
        simp [resolve_schema_path, hnone] at hc
    obtain ⟨hp, l1, l2, heq, hall⟩ := List.find?_eq_some.mp hfind
    exact ⟨hp, l1, l2, heq, fun y hy => by simpa using hall y hy⟩
  · intro hall
    have hnone : (schemaCandidates cli env yd sd cwd).find?
        (candidateOk isFile) = none :=
      List.find?_eq_none.mpr fun x hx => by simp [hall x hx]
    refine ⟨"Schema file not found. Checked: " ++
      pyJoin ", " ((schemaCandidates cli env yd sd cwd).filter (fun c => c ≠ "")),
      ?_, ?_⟩
    · simp [mainRun, resolve_schema_path, hnone]
    · intro c hc hne
      have hmem : c ∈ (schemaCandidates cli env yd sd cwd).filter
          (fun c => c ≠ "") := by
        simp [List.mem_filter, hc, hne]
      obtain ⟨pre, post, hsplit⟩ :=
        mem_containsSubstr_pyJoin ((schemaCandidates cli env yd sd cwd).filter
          (fun c => c ≠ "")) hmem
      exact ⟨"Schema file not found. Checked: " ++ pre, post, by
        rw [hsplit]; simp [String.append_assoc]⟩

/-- C8 witness: with no file present anywhere, resolution fails with
exit code 3 and a message listing each candidate. -/
theorem schema_resolution_error_witness :
    ∃ msg, mainRun (some "/x/s.json") none "/yd" "/sd" "/cwd"
        (fun _ => false) (fun _ => ⟨EXIT_SUCCESS, [], []⟩) =
        ⟨EXIT_SCHEMA_ERROR, [msg], []⟩ ∧
      ∀ c ∈ schemaCandidates (some "/x/s.json") none "/yd" "/sd" "/cwd",
        c ≠ "" → containsSubstr msg c :=
  (schema_resolution_first_hit_and_error_listing (some "/x/s.json") none
    "/yd" "/sd" "/cwd" (fun _ => false) (fun _ => ⟨EXIT_SUCCESS, [], []⟩)).2
    (by intro c hc; simp [candidateOk])

mutual

/-- A structurally conforming value produces no `iter_errors`. -/
theorem conformsTo_iter_errors_nil (s : Schema) (path : List PathElem)
    (spath : List String) (v : Value) (h : conformsTo s v = true) :
    iter_errors s path spath v = [] := by
  rcases s with ⟨t?, req, props⟩
  rw [conformsTo.eq_def] at h
  rw [Bool.and_eq_true] at h
  obtain ⟨h1, h2⟩ := h
  rw [iter_errors.eq_def]
  rw [List.append_eq_nil]
  constructor
  · rcases t? with _ | t
    · rfl
    · simp only at h1
      simp [h1]
  · rcases v with _ | b | n | s | items | fields
    · rfl
    · rfl
    · rfl
    · rfl
    · rfl
    · simp only at h2
      rw [Bool.and_eq_true] at h2
      obtain ⟨hreq, hprops⟩ := h2
      rw [List.append_eq_nil]
      constructor
      · rw [requiredErrors, List.filterMap_eq_nil_iff]
        intro name hname
        have := List.all_eq_true.mp hreq name hname
        simp only [this]
        simp
      · exact conformsProps_iterProps_nil props fields path spath hprops

/-- Conforming properties produce no `properties` errors. -/
theorem conformsProps_iterProps_nil (props : List (String × Schema))
    (fields : List (String × Value)) (path : List PathElem)
    (spath : List String) (h : conformsProps props fields = true) :
    iterProps props fields path spath = [] := by
  match props with
  | [] => rfl
  | (k, sub) :: rest =>
    rw [conformsProps.eq_def] at h
    rw [Bool.and_eq_true] at h
    obtain ⟨h1, h2⟩ := h
    rw [iterProps.eq_def]
    rw [List.append_eq_nil]
    constructor
    · rcases hlk : lookupField fields k with _ | vv
      · simp [hlk]
      · rw [hlk] at h1
        simp only [hlk]
        exact conformsTo_iter_errors_nil sub _ _ vv h1
    · exact conformsProps_iterProps_nil rest fields path spath h2

end

/-- C1: a document that structurally satisfies the schema and passes
every domain check yields zero findings and the success exit code. -/
theorem valid_document_zero_findings_success :
    ∀ (fp sp : String) (schema : Schema) (doc : Value) (ff q : Bool),
    conformsTo schema doc = true →
    domainChecksPass doc = true →
    validate_yaml fp sp (.ok schema) (.ok doc) ff q =
      ⟨EXIT_SUCCESS, if q then [] else ["YAML validation successful!"], []⟩ := by
  intro fp sp schema doc ff q hconf hdomain
  have hnil : iter_errors schema [] [] doc = [] :=
    conformsTo_iter_errors_nil schema [] [] doc hconf
  simp [validate_yaml, load_yaml_with_positions, hnil]

/-- The example schema of the repository's own test-suite: an object
with a required string property `name`. -/
def exSchema : Schema :=
  .mk (some "object") ["name"] [("name", .mk (some "string") [] [])]

/-- A document satisfying `exSchema` (`name: Test`). -/
def exDoc : Value :=
  .obj [("name", .str "Test")]

/-- C1 witness: the theorem applied at the concrete schema/document. -/
theorem valid_document_zero_findings_success_witness :
    conformsTo exSchema exDoc = true ∧
    domainChecksPass exDoc = true ∧
    validate_yaml "data.yaml" "schema.json" (.ok exSchema) (.ok exDoc)
        false false =
      ⟨EXIT_SUCCESS, ["YAML validation successful!"], []⟩ :=
  ⟨by decide, by decide,
   valid_document_zero_findings_success "data.yaml" "schema.json" exSchema exDoc
     false false (by decide) (by decide)⟩

/-- C5 counterexample: for the document `{age: 25}` against a schema
requiring `name`, the single Finding's document path is the containing
object (`$`), not the missing field's own path (`$.name`); the field is
named only in the message. -/
theorem missing_required_field_path_counterexample :
    (validate_yaml "f" "s" (.ok exSchema) (.ok (.obj [("age", .num 25)]))
        false false).exit = EXIT_VALIDATION_ERROR ∧
    (validate_yaml "f" "s" (.ok exSchema) (.ok (.obj [("age", .num 25)]))
        false false).findings.length = 1 ∧
    (∀ e ∈ (validate_yaml "f" "s" (.ok exSchema)
        (.ok (.obj [("age", .num 25)])) false false).findings,
      path_to_str e.path = "$" ∧ e.path ≠ [PathElem.key "name"] ∧
        e.message = pyReprStr "name" ++ " is a required property") := by
  refine ⟨by decide, by decide, ?_⟩
  decide

/-- C5 (amended): a document missing a schema-required field produces at
least one Finding anchored at the path of the object missing the field,
whose message names that field, and the run exits with
`EXIT_VALIDATION_ERROR`, never `EXIT_SUCCESS`. -/
theorem missing_required_field_finding_and_exit :
    ∀ (fp sp : String) (t? : Option String) (req : List String)
      (props : List (String × Schema)) (fields : List (String × Value))
      (f : String) (q : Bool),
    f ∈ req → hasField fields f = false →
    (validate_yaml fp sp (.ok (.mk t? req props)) (.ok (.obj fields))
        false q).exit = EXIT_VALIDATION_ERROR ∧
    (validate_yaml fp sp (.ok (.mk t? req props)) (.ok (.obj fields))
        false q).exit ≠ EXIT_SUCCESS ∧
    (∃ e ∈ (validate_yaml fp sp (.ok (.mk t? req props)) (.ok (.obj fields))
        false q).findings,
      e.validator = "required" ∧ e.path = [] ∧
        e.message = pyReprStr f ++ " is a required property") := by
  intro fp sp t? req props fields f q hf hmiss
  set re : VError :=
    { path := []
      schemaPath := ["required"]
      message := pyReprStr f ++ " is a required property"
      validator := "required"
      validatorValue := "[" ++ String.intercalate ", " (req.map pyReprStr) ++ "]"
      inst := .obj fields } with hre
  have hmemReq : re ∈ requiredErrors req fields [] := by
    rw [requiredErrors]
    rw [List.mem_filterMap]
    exact ⟨f, hf, by simp [hmiss, hre]⟩
  have hmemErrs : re ∈ iter_errors (.mk t? req props) [] [] (.obj fields) := by
    rw [iter_errors.eq_def]
    simp only
    rw [List.mem_append]
    right
    rw [List.mem_append]
    exact Or.inl hmemReq
  have hne : iter_errors (.mk t? req props) [] [] (.obj fields) ≠ [] :=
    List.ne_nil_of_mem hmemErrs
  have hempty : (iter_errors (.mk t? req props) [] [] (.obj fields)).isEmpty = false := by
    rw [List.isEmpty_eq_false]
    exact hne
  refine ⟨?_, ?_, ?_⟩
  · simp [validate_yaml, load_yaml_with_positions, hempty]
  · simp [validate_yaml, load_yaml_with_positions, hempty]
    decide
  · refine ⟨re, ?_, rfl, rfl, rfl⟩
    simp only [validate_yaml, load_yaml_with_positions, hempty]
    simp only [Bool.false_eq_true, if_false]
    rw [mem_sortErrors]
    exact hmemErrs

/-- C5 witness: the amended theorem at the concrete inputs of the
counterexample. -/
theorem missing_required_field_finding_and_exit_witness :
    "name" ∈ (["name"] : List String) ∧
    hasField [("age", Value.num 25)] "name" = false ∧
    ((validate_yaml "f" "s" (.ok (.mk (some "object") ["name"]
        [("name", .mk (some "string") [] [])]))
        (.ok (.obj [("age", .num 25)])) false false).exit =
      EXIT_VALIDATION_ERROR ∧
    (validate_yaml "f" "s" (.ok (.mk (some "object") ["name"]
        [("name", .mk (some "string") [] [])]))
        (.ok (.obj [("age", .num 25)])) false false).exit ≠ EXIT_SUCCESS ∧
    (∃ e ∈ (validate_yaml "f" "s" (.ok (.mk (some "object") ["name"]
        [("name", .mk (some "string") [] [])]))
        (.ok (.obj [("age", .num 25)])) false false).findings,
      e.validator = "required" ∧ e.path = [] ∧
        e.message = pyReprStr "name" ++ " is a required property")) :=
  ⟨by decide, by decide,
   missing_required_field_finding_and_exit "f" "s" (some "object") ["name"]
     [("name", .mk (some "string") [] [])] [("age", .num 25)] "name" false
     (by decide) (by decide)⟩

/-- A schema under which a document can violate three independent rules
at depths 0, 1 and 2 (`required` at the root, `type` at `$.b`, `type`
at `$.c.d`). -/
def deep3Schema : Schema :=
  .mk none ["a"] [("b", .mk (some "string") [] []),
                  ("c", .mk none [] [("d", .mk (some "string") [] [])])]

/-- A document with exactly those three independent violations. -/
def deep3Doc : Value :=
  .obj [("b", .num 1), ("c", .obj [("d", .num 2)])]

/-- C4 counterexample: on a document with three independent violations
(at path depths 0, 1, 2), fail-fast returns exactly one Finding — but
it is the depth-0 (shallowest) one, not the deepest-path failure. -/
theorem fail_fast_not_deepest_counterexample :
    (validate_yaml "f" "s" (.ok deep3Schema) (.ok deep3Doc) true
        false).findings.length = 1 ∧
    (iter_errors deep3Schema [] [] deep3Doc).length = 3 ∧
    (∀ e ∈ (validate_yaml "f" "s" (.ok deep3Schema) (.ok deep3Doc) true
        false).findings, e.path.length = 0) ∧
    (∃ e ∈ iter_errors deep3Schema [] [] deep3Doc, e.path.length = 2) := by
  refine ⟨by decide, by decide, by decide, ?_⟩
  decide

theorem lex_le_first {a b : Int}
    {r1 r2 : Lex (Bool × Lex (Bool × Bool))}
    (h : (toLex (a, r1) : Lex (Int × Lex (Bool × Lex (Bool × Bool)))) ≤
      toLex (b, r2)) : a ≤ b := by
  rw [Prod.Lex.le_iff] at h
  rcases h with h | ⟨h, _⟩
  · exact le_of_lt h
  · exact le_of_eq h

theorem foldl_best_mem (e : VError) :
    ∀ l : List VError,
      (l.foldl (fun b x => if relevanceKey b < relevanceKey x then x else b) e) = e ∨
      (l.foldl (fun b x => if relevanceKey b < relevanceKey x then x else b) e) ∈ l := by
  intro l
  induction l generalizing e with
  | nil => exact Or.inl rfl
  | cons x rest ih =>
    rw [List.foldl_cons]
    rcases ih (if relevanceKey e < relevanceKey x then x else e) with h | h
    · rw [h]
      split
      · exact Or.inr (List.mem_cons_self x rest)
      · exact Or.inl rfl
    · exact Or.inr (List.mem_cons_of_mem x h)

theorem foldl_best_ge (e : VError) :
    ∀ l : List VError,
      relevanceKey e ≤ relevanceKey
        (l.foldl (fun b x => if relevanceKey b < relevanceKey x then x else b) e) ∧
      ∀ x ∈ l, relevanceKey x ≤ relevanceKey
        (l.foldl (fun b x => if relevanceKey b < relevanceKey x then x else b) e) := by
  intro l
  induction l generalizing e with
  | nil => exact ⟨le_refl _, by simp⟩
  | cons x rest ih =>
    rw [List.foldl_cons]
    obtain ⟨hacc, hall⟩ := ih (if relevanceKey e < relevanceKey x then x else e)
    have he : relevanceKey e ≤
        relevanceKey (if relevanceKey e < relevanceKey x then x else e) := by
      split
      · next h => exact le_of_lt h
      · exact le_refl _
    have hx : relevanceKey x ≤
        relevanceKey (if relevanceKey e < relevanceKey x then x else e) := by
      split
      · exact le_refl _
      · next h => exact le_of_not_lt h
    refine ⟨le_trans he hacc, fun y hy => ?_⟩
    rcases List.mem_cons.mp hy with h | h
    · rw [h]
      exact le_trans hx hacc
    · exact hall y h

/-- C4 (amended): with fail-fast enabled and a non-empty error list,
`validate_yaml` reports exactly one Finding — the library's `best_match`
under its relevance heuristic, whose path depth is minimal (the
shallowest, most "relevant" failure), not the deepest. -/
theorem fail_fast_single_shallowest_finding :
    ∀ (fp sp : String) (schema : Schema) (doc : Value) (q : Bool),
    iter_errors schema [] [] doc ≠ [] →
    ∃ f, (validate_yaml fp sp (.ok schema) (.ok doc) true q).findings = [f] ∧
      f ∈ iter_errors schema [] [] doc ∧
      ∀ e ∈ iter_errors schema [] [] doc, f.path.length ≤ e.path.length := by
  intro fp sp schema doc q hne
  obtain ⟨e, rest, herr⟩ := List.exists_cons_of_ne_nil hne
  have hempty : (iter_errors schema [] [] doc).isEmpty = false := by
    rw [List.isEmpty_eq_false]
    exact hne
  set bm := rest.foldl
    (fun b x => if relevanceKey b < relevanceKey x then x else b) e with hbm
  have hfind : (validate_yaml fp sp (.ok schema) (.ok doc) true q).findings = [bm] := by
    simp only [validate_yaml, load_yaml_with_positions, hempty]
    simp only [Bool.false_eq_true, if_false, if_true, herr, best_match, hbm]
    rfl
  have hmem : bm ∈ iter_errors schema [] [] doc := by
    rw [herr]
    rcases foldl_best_mem e rest with h | h
    · rw [hbm, h]
      exact List.mem_cons_self e rest
    · exact List.mem_cons_of_mem e h
  refine ⟨bm, hfind, hmem, ?_⟩
  intro x hx
  have hge : relevanceKey x ≤ relevanceKey bm := by
    rw [herr] at hx
    rcases List.mem_cons.mp hx with h | h
    · exact h ▸ (foldl_best_ge e rest).1
    · exact (foldl_best_ge e rest).2 x h
  have hfirst : -(x.path.length : Int) ≤ -(bm.path.length : Int) :=
    lex_le_first hge
  omega

/-- C4 witness: the amended theorem at the three-violation document. -/
theorem fail_fast_single_shallowest_finding_witness :
    iter_errors deep3Schema [] [] deep3Doc ≠ [] ∧
    ∃ f, (validate_yaml "f" "s" (.ok deep3Schema) (.ok deep3Doc) true
        false).findings = [f] ∧
      f ∈ iter_errors deep3Schema [] [] deep3Doc ∧
      ∀ e ∈ iter_errors deep3Schema [] [] deep3Doc,
        f.path.length ≤ e.path.length :=
  ⟨by
    intro h
    have h3 : (iter_errors deep3Schema [] [] deep3Doc).length = 3 := by decide
    rw [h] at h3
    simp at h3,
   fail_fast_single_shallowest_finding "f" "s" deep3Schema deep3Doc false
     (by
       intro h
       have h3 : (iter_errors deep3Schema [] [] deep3Doc).length = 3 := by decide
       rw [h] at h3
       simp at h3)⟩

theorem sortLe_iff {a b : VError} :
    sortLe a b = true ↔ a.path.length < b.path.length ∨
      (a.path.length = b.path.length ∧ errStr a ≤ errStr b) := by
  rw [sortLe]
  rw [Bool.or_eq_true, Bool.and_eq_true]
  simp

theorem sortLe_total (a b : VError) : sortLe a b = true ∨ sortLe b a = true := by
  rw [sortLe_iff, sortLe_iff]
  rcases Nat.lt_trichotomy a.path.length b.path.length with h | h | h
  · exact Or.inl (Or.inl h)
  · rcases le_total (errStr a) (errStr b) with hs | hs
    · exact Or.inl (Or.inr ⟨h, hs⟩)
    · exact Or.inr (Or.inr ⟨h.symm, hs⟩)
  · exact Or.inr (Or.inl h)

theorem sortLe_trans {a b c : VError} (h1 : sortLe a b = true)
    (h2 : sortLe b c = true) : sortLe a c = true := by
  rw [sortLe_iff] at h1 h2 ⊢
  rcases h1 with h1 | ⟨h1, hs1⟩
  · rcases h2 with h2 | ⟨h2, _⟩
    · exact Or.inl (h1.trans h2)
    · exact Or.inl (h2 ▸ h1)
  · rcases h2 with h2 | ⟨h2, hs2⟩
    · exact Or.inl (h1 ▸ h2)
    · exact Or.inr ⟨h1.trans h2, le_trans hs1 hs2⟩

theorem pairwise_insertSorted {e : VError} :
    ∀ {l : List VError}, List.Pairwise (fun a b => sortLe a b = true) l →
      List.Pairwise (fun a b => sortLe a b = true) (insertSorted e l) := by
  intro l
  induction l with
  | nil => intro _; simp [insertSorted]
  | cons x rest ih =>
    intro h
    rw [List.pairwise_cons] at h
    obtain ⟨hx, hrest⟩ := h
    rw [insertSorted]
    split
    · next hle =>
      rw [List.pairwise_cons]
      refine ⟨?_, List.pairwise_cons.mpr ⟨hx, hrest⟩⟩
      intro y hy
      rcases List.mem_cons.mp hy with h | h
      · rw [h]; exact hle
      · exact sortLe_trans hle (hx y h)
    · next hnle =>
      rw [List.pairwise_cons]
      constructor
      · intro y hy
        rcases mem_insertSorted.mp hy with h | h
        · rw [h]
          rcases sortLe_total e x with he | he
          · exact absurd he hnle
          · exact he
        · exact hx y h
      · exact ih hrest

theorem pairwise_sortErrors :
    ∀ l : List VError,
      List.Pairwise (fun a b => sortLe a b = true) (sortErrors l) := by
  intro l
  induction l with
  | nil => simp [sortErrors]
  | cons e rest ih =>
    rw [sortErrors]
    exact pairwise_insertSorted ih

/-- C6: `validate_yaml` is a pure function — two runs on the same
schema, document, format and flag inputs produce the identical report —
and the findings it reports are deterministically ordered by ascending
document-path depth and then by the rendered error string (which begins
with the error's message). -/
theorem validator_idempotent_and_sorted :
    ∀ (fp sp : String) (so : SchemaOutcome) (yo : YamlOutcome) (ff q : Bool),
    validate_yaml fp sp so yo ff q = validate_yaml fp sp so yo ff q ∧
    List.Pairwise (fun a b => a.path.length < b.path.length ∨
        (a.path.length = b.path.length ∧ errStr a ≤ errStr b))
      (validate_yaml fp sp so yo ff q).findings ∧
    (∀ e : VError, ∃ suffix, errStr e = e.message ++ suffix) := by
  intro fp sp so yo ff q
  refine ⟨rfl, ?_, fun e =>
    ⟨"\n\nFailed validating " ++ (pyReprStr e.validator ++ (" in schema" ++
        String.join (e.schemaPath.map (fun p => "[" ++ pyReprStr p ++ "]")))),
      by simp [errStr, String.append_assoc]⟩⟩
  have hsorted : ∀ l : List VError,
      List.Pairwise (fun a b => a.path.length < b.path.length ∨
        (a.path.length = b.path.length ∧ errStr a ≤ errStr b)) (sortErrors l) := by
    intro l
    exact (pairwise_sortErrors l).imp fun h => sortLe_iff.mp h
  rcases so with s | m
  · rcases yo with v | m | ⟨mark, m⟩ | m | m
    · simp only [validate_yaml, load_yaml_with_positions]
      split
      · simp
      · exact hsorted _
    · simp [validate_yaml, load_yaml_with_positions]
    · rcases mark with _ | ⟨l, c⟩ <;> simp [validate_yaml, load_yaml_with_positions]
    · simp [validate_yaml, load_yaml_with_positions]
    · simp [validate_yaml, load_yaml_with_positions]
  · simp [validate_yaml]

theorem firstDupOf_eq_some {es : List Entry} {i j0 : Nat}
    (h : firstDupOf es i = some j0) :
    j0 < i ∧ keyAt es j0 = keyAt es i ∧ ∀ j < j0, keyAt es j ≠ keyAt es i := by
  rw [firstDupOf] at h
  obtain ⟨hp, as, bs, heq, hall⟩ := List.find?_eq_some.mp h
  have hp' : keyAt es j0 = keyAt es i := by simpa using hp
  have hlen : as.length < i := by
    have := congrArg List.length heq
    simp at this
    omega
  have hj0 : as.length = j0 := by
    have h1 : (List.range i)[as.length]? = some j0 := by
      rw [heq, List.getElem?_append_right (le_refl _)]
      simp
    rw [List.getElem?_range hlen] at h1
    exact Option.some_injective _ h1
  have has : as = List.range j0 := by
    have h1 : (List.range i).take as.length = as := by
      rw [heq]
      exact List.take_left as (j0 :: bs)
    rw [hj0] at h1
    rw [List.take_range] at h1
    rw [← h1]
    congr 1
    omega
  refine ⟨hj0 ▸ hlen, hp', ?_⟩
  intro j hj
  have hjas : j ∈ as := by
    rw [has]
    exact List.mem_range.mpr hj
  have := hall j hjas
  simpa using this

theorem firstDupOf_isSome {es : List Entry} {i : Nat}
    (h : ∃ j, j < i ∧ keyAt es j = keyAt es i) :
    (firstDupOf es i).isSome = true := by
  rw [firstDupOf, List.find?_isSome]
  obtain ⟨j, hj, hk⟩ := h
  exact ⟨j, List.mem_range.mpr hj, by simpa using hk⟩

theorem firstDupOf_eq_none {es : List Entry} {i : Nat}
    (h : ∀ j < i, keyAt es j ≠ keyAt es i) : firstDupOf es i = none := by
  rw [firstDupOf, List.find?_eq_none]
  intro j hj
  simpa using h j (List.mem_range.mp hj)

/-- The per-index generator underlying `dupFindings`. -/
def dupGen (es : List Entry) (i : Nat) : Option DupFinding :=
  match firstDupOf es i with
  | some j => some ⟨i, j⟩
  | none => none

theorem dupFindings_eq_filterMap (es : List Entry) :
    dupFindings es = (List.range es.length).filterMap (dupGen es) := rfl

theorem dupGen_index {es : List Entry} {a : Nat} {f : DupFinding}
    (h : dupGen es a = some f) : f.index = a ∧ firstDupOf es a = some f.earlier := by
  rw [dupGen] at h
  rcases hd : firstDupOf es a with _ | j
  · rw [hd] at h; cases h
  · rw [hd] at h
    cases h
    exact ⟨rfl, by simp [hd]⟩

theorem filter_filterMap_dupGen (es : List Entry) (i : Nat) :
    ∀ l : List Nat, l.Nodup →
      ((l.filterMap (dupGen es)).filter (fun f => f.index == i)) =
        (if i ∈ l then (dupGen es i).toList else []) := by
  intro l
  induction l with
  | nil => simp
  | cons a rest ih =>
    intro hnd
    rw [List.nodup_cons] at hnd
    obtain ⟨hna, hnd⟩ := hnd
    rw [List.filterMap_cons]
    rcases hga : dupGen es a with _ | b
    · by_cases hia : i = a
      · subst hia
        have h1 : (i ∈ i :: rest) := List.mem_cons_self i rest
        rw [if_pos h1, hga, ih hnd, if_neg hna]
        rfl
      · rw [ih hnd]
        by_cases hmem : i ∈ rest
        · rw [if_pos hmem, if_pos (List.mem_cons_of_mem a hmem)]
        · rw [if_neg hmem, if_neg (by simp [hia, hmem])]
    · have hidx : b.index = a := (dupGen_index hga).1
      rw [List.filter_cons]
      by_cases hia : i = a
      · subst hia
        rw [if_pos (by simp [hidx]), ih hnd, if_neg hna,
          if_pos (List.mem_cons_self i rest), hga]
        rfl
      · rw [if_neg (by simp [hidx]; exact fun h => hia h.symm), ih hnd]
        by_cases hmem : i ∈ rest
        · rw [if_pos hmem, if_pos (List.mem_cons_of_mem a hmem)]
        · rw [if_neg hmem, if_neg (by simp [hia, hmem])]

/-- C2: under the spec's duplicate check, an entry preceded by an entry
with the same `(name, URL)` pair yields exactly one Finding, carrying
its own index and the index of the first earlier entry it duplicates; an
entry whose key appears nowhere earlier yields none; an entry whose key
is unique in the document appears in no duplicate Finding at all. -/
theorem duplicate_check_findings :
    ∀ (es : List Entry) (i : Nat), i < es.length →
    ((∃ j, j < i ∧ keyAt es j = keyAt es i) →
      ∃ j0, (dupFindings es).filter (fun f => f.index == i) = [⟨i, j0⟩] ∧
        j0 < i ∧ keyAt es j0 = keyAt es i ∧
        ∀ j < j0, keyAt es j ≠ keyAt es i) ∧
    ((∀ j < i, keyAt es j ≠ keyAt es i) →
      (dupFindings es).filter (fun f => f.index == i) = []) ∧
    ((∀ j, j < es.length → j ≠ i → keyAt es j ≠ keyAt es i) →
      ∀ f ∈ dupFindings es, f.index ≠ i ∧ f.earlier ≠ i) := by
  intro es i hi
  have hbase : (dupFindings es).filter (fun f => f.index == i) =
      (if i ∈ List.range es.length then (dupGen es i).toList else []) := by
    rw [dupFindings_eq_filterMap]
    exact filter_filterMap_dupGen es i (List.range es.length)
      (List.nodup_range es.length)
  rw [if_pos (List.mem_range.mpr hi)] at hbase
  refine ⟨?_, ?_, ?_⟩
  · intro hdup
    obtain ⟨j0, hj0⟩ := Option.isSome_iff_exists.mp (firstDupOf_isSome hdup)
    obtain ⟨hlt, hkey, hmin⟩ := firstDupOf_eq_some hj0
    refine ⟨j0, ?_, hlt, hkey, hmin⟩
    rw [hbase, dupGen, hj0]
    rfl
  · intro huniq
    rw [hbase, dupGen, firstDupOf_eq_none huniq]
    rfl
  · intro huniq f hf
    rw [dupFindings_eq_filterMap, List.mem_filterMap] at hf
    obtain ⟨a, ha, hga⟩ := hf
    have ha' : a < es.length := List.mem_range.mp ha
    obtain ⟨hidx, hfd⟩ := dupGen_index hga
    obtain ⟨hlt, hkey, _⟩ := firstDupOf_eq_some hfd
    constructor
    · intro hie
      apply huniq f.earlier (by omega) (by omega)
      have hai : a = i := by rw [← hidx, hie]
      rw [hai] at hkey
      exact hkey
    · intro hie
      apply huniq f.index (by omega) (by omega)
      rw [hidx, ← hkey, hie]

/-- Three concrete entries: two sharing `(name, URL)` and one with a
distinct URL. -/
def dupEntries : List Entry :=
  [⟨"A", "u", []⟩, ⟨"A", "u", []⟩, ⟨"A", "u2", []⟩]

/-- C2 witness: on `dupEntries` the pair produces exactly the Finding
`⟨1, 0⟩` for the later duplicate, and the distinct-URL entry is in no
Finding. -/
theorem duplicate_check_findings_witness :
    (1 < dupEntries.length ∧
      (∃ j0, (dupFindings dupEntries).filter (fun f => f.index == 1) = [⟨1, j0⟩] ∧
        j0 < 1 ∧ keyAt dupEntries j0 = keyAt dupEntries 1 ∧
        ∀ j < j0, keyAt dupEntries j ≠ keyAt dupEntries 1)) ∧
    (∀ f ∈ dupFindings dupEntries, f.index ≠ 2 ∧ f.earlier ≠ 2) :=
  ⟨⟨by decide,
    (duplicate_check_findings dupEntries 1 (by decide)).1
      ⟨0, by decide, by decide⟩⟩,
   (duplicate_check_findings dupEntries 2 (by decide)).2.2
     (by decide)⟩

theorem mem_entryCountryFindings {f : CountryFinding} {i : Nat} {e : Entry} :
    f ∈ entryCountryFindings i e ↔
      ∃ loc ∈ e.locations, ∃ c, loc.countryId? = some c ∧
        isoMember c = false ∧ f = ⟨i, e.name, c⟩ := by
  rw [entryCountryFindings, List.mem_filterMap]
  constructor
  · rintro ⟨loc, hloc, hf⟩
    rcases hc : loc.countryId? with _ | c
    · rw [hc] at hf
      cases hf
    · rw [hc] at hf
      dsimp only at hf
      by_cases hm : isoMember c = true
      · rw [if_pos hm] at hf
        cases hf
      · rw [if_neg hm] at hf
        cases hf
        exact ⟨loc, hloc, c, hc, by simpa using hm, rfl⟩
  · rintro ⟨loc, hloc, c, hc, hm, hf⟩
    refine ⟨loc, hloc, ?_⟩
    rw [hc]
    dsimp only
    rw [if_neg (by simp [hm]), hf]

theorem mem_countryFindingsFrom {f : CountryFinding} :
    ∀ (start : Nat) (es : List Entry),
      f ∈ countryFindingsFrom start es ↔
        ∃ k, k < es.length ∧ f ∈ entryCountryFindings (start + k) (es.getD k default) := by
  intro start es
  induction es generalizing start with
  | nil => simp [countryFindingsFrom]
  | cons e rest ih =>
    rw [countryFindingsFrom, List.mem_append, ih (start + 1)]
    constructor
    · rintro (h | ⟨k, hk, h⟩)
      · exact ⟨0, by simp, by simpa using h⟩
      · exact ⟨k + 1, by simpa using hk, by
          have : start + 1 + k = start + (k + 1) := by omega
          rw [this] at h
          simpa using h⟩
    · rintro ⟨k, hk, h⟩
      rcases k with _ | k
      · exact Or.inl (by simpa using h)
      · refine Or.inr ⟨k, by simpa using hk, ?_⟩
        have : start + 1 + k = start + (k + 1) := by omega
        rw [this]
        simpa using h

/-- C3: under the spec's country-code check, a location's country code
is accepted iff it resolves against the ISO 3166-1 alpha-2 table: an
unresolvable code yields a Finding naming the offending entry, a
resolvable code appears in no Finding; concretely `TH` resolves, `ZZ`
does not, and the well-formed two-uppercase-letter `AB` is still
rejected (format-only checking is insufficient). -/
theorem country_code_check :
    ∀ (es : List Entry) (i : Nat) (loc : Location) (c : String),
    i < es.length → loc ∈ (es.getD i default).locations →
    loc.countryId? = some c →
    ((isoMember c = false →
       (⟨i, (es.getD i default).name, c⟩ : CountryFinding) ∈ countryFindings es) ∧
     (isoMember c = true → ∀ f ∈ countryFindings es, f.code ≠ c) ∧
     (∀ f ∈ countryFindings es, isoMember f.code = false ∧ f.index < es.length) ∧
     (isoMember "TH" = true ∧ isoMember "ZZ" = false ∧ isTwoUpper "ZZ" = true ∧
       isTwoUpper "AB" = true ∧ isoMember "AB" = false)) := by
  intro es i loc c hi hloc hc
  have hsound : ∀ f ∈ countryFindings es,
      isoMember f.code = false ∧ f.index < es.length := by
    intro f hf
    rw [countryFindings, mem_countryFindingsFrom] at hf
    obtain ⟨k, hk, hf⟩ := hf
    obtain ⟨_, _, c0, _, hm0, hf0⟩ := mem_entryCountryFindings.mp hf
    rw [hf0]
    exact ⟨hm0, by simpa using hk⟩
  refine ⟨?_, ?_, hsound, by decide, by decide, by decide, by decide, by decide⟩
  · intro hm
    rw [countryFindings, mem_countryFindingsFrom]
    exact ⟨i, hi, mem_entryCountryFindings.mpr
      ⟨loc, by simpa using hloc, c, hc, hm, by simp⟩⟩
  · intro hm f hf
    intro hfc
    have := (hsound f hf).1
    rw [hfc, hm] at this
    cases this

/-- Two concrete entries: one with the valid code `TH`, one with the
invalid (user-assigned range) code `ZZ`. -/
def countryEntries : List Entry :=
  [⟨"A", "u1", [⟨some "TH"⟩]⟩, ⟨"B", "u2", [⟨some "ZZ"⟩]⟩]

/-- C3 witness: the theorem applied at the `ZZ` location of the second
entry. -/
theorem country_code_check_witness :
    (1 < countryEntries.length ∧
      (⟨1, "B", "ZZ"⟩ : CountryFinding) ∈ countryFindings countryEntries) ∧
    (∀ f ∈ countryFindings countryEntries, f.code ≠ "TH") :=
  ⟨⟨by decide,
    (country_code_check countryEntries 1 ⟨some "ZZ"⟩ "ZZ" (by decide)
      (by decide) rfl).1 (by decide)⟩,
   (country_code_check countryEntries 0 ⟨some "TH"⟩ "TH" (by decide)
      (by decide) rfl).2.1 (by decide)⟩
